import Mathlib

/-!
# BookBytes job queue: shallow embedding and verification

This file embeds the background-job queue of the BookBytes backend
(`bookbytes/models/job.py` and `bookbytes/repositories/job.py`) in Lean and
proves or refutes the specified properties of its claim / progress /
complete / fail / retry protocol.

Modelling conventions:
* the jobs table is a `List Job`; the primary-key uniqueness of `id` is the
  hypothesis `(s.map Job.id).Nodup` where a proof needs it;
* timestamps (`datetime.now(UTC)`) are explicit `Nat` parameters `now`;
* UUIDs are `Nat`; Python `str` is `String`; Python `int` is `Int`;
* a SQL `UPDATE ... WHERE ...` is a `List.map` of a row-update function that
  is the identity off the `WHERE` clause; `rowcount > 0` is `List.any`;
  `RETURNING` + `scalar_one_or_none` is `List.find?` of the `WHERE`
  predicate mapped through the row update;
* Python string slicing `s[:n]` is `strTruncate n s` (first `n` code points);
* Python truthiness of the optional `job_type` / `error_code` arguments is
  `isTruthy` (false for `None` and for the empty string).
-/

/-- `JobStatus` enum from `bookbytes/models/job.py`. -/
inductive JobStatus where
  | pending : JobStatus
  | processing : JobStatus
  | completed : JobStatus
  | failed : JobStatus
deriving DecidableEq, Repr

/-- The `Job` row from `bookbytes/models/job.py` (generic background job). -/
structure Job where
  id : Nat
  job_type : String
  status : JobStatus
  progress : Int
  current_step : Option String
  error_message : Option String
  error_code : Option String
  version : Nat
  worker_id : Option String
  retry_count : Nat
  max_retries : Nat
  created_at : Nat
  started_at : Option Nat
  completed_at : Option Nat
deriving DecidableEq, Repr

/-- A freshly inserted job row: the column defaults of the `Job` model
(status `pending`, progress 0, version 1, retry_count 0, no worker, no
timestamps, no errors). -/
def create_job (i : Nat) (t : String) (created : Nat) (maxr : Nat) : Job :=
  { id := i
    job_type := t
    status := JobStatus.pending
    progress := 0
    current_step := none
    error_message := none
    error_code := none
    version := 1
    worker_id := none
    retry_count := 0
    max_retries := maxr
    created_at := created
    started_at := none
    completed_at := none }

/-- `Job.can_retry` property: status is failed and retry budget remains. -/
def can_retry (j : Job) : Bool :=
  j.status == JobStatus.failed && j.retry_count < j.max_retries

/-- Python truthiness of an optional string: `None` and `""` are falsy. -/
def isTruthy : Option String → Bool
  | none => false
  | some s => !(s == "")

/-- Python slicing `s[:n]`: the first `n` code points of `s`. -/
def strTruncate (n : Nat) (s : String) : String :=
  (s.data.take n).asString

/-- `error_code[:50] if error_code else None` in `mark_failed`. -/
def truncCode (code : Option String) : Option String :=
  if isTruthy code then (code.getD "").data.take 50 |>.asString |> some else none

/-- The WHERE predicate of the selection query in `claim_next`: status is
pending, and when the `job_type` argument is truthy an extra equality clause
is appended. -/
def claimQueryPred (job_type : Option String) (j : Job) : Bool :=
  if isTruthy job_type then
    (j.status == JobStatus.pending) && (j.job_type == job_type.getD "")
  else
    j.status == JobStatus.pending

/-- `ORDER BY created_at LIMIT 1`: the element with minimal `created_at`
(first among ties). -/
def oldest : List Job → Option Job
  | [] => none
  | j :: rest =>
    match oldest rest with
    | none => some j
    | some b => if j.created_at ≤ b.created_at then some j else some b

/-- The VALUES of the claim update: status processing, worker and start time
set, version bumped by one. -/
def applyClaim (worker_id : String) (now : Nat) (j : Job) : Job :=
  { j with
    status := JobStatus.processing
    worker_id := some worker_id
    started_at := some now
    version := j.version + 1 }

/-- One row under `claim_next`'s conditional update
(`WHERE id = i AND version = v`, the optimistic lock). -/
def claimUpdateRow (i v : Nat) (worker_id : String) (now : Nat) (x : Job) : Job :=
  if x.id = i ∧ x.version = v then applyClaim worker_id now x else x

/-- `JobRepository.claim_next`: select the oldest pending job (optionally
filtered by truthy `job_type`), then atomically update it conditioned on
`(id, version)`; returns the new table and the RETURNING row (or none). -/
def claim_next (s : List Job) (worker_id : String) (job_type : Option String)
    (now : Nat) : List Job × Option Job :=
  match oldest (s.filter (claimQueryPred job_type)) with
  | none => (s, none)
  | some job =>
    (s.map (claimUpdateRow job.id job.version worker_id now),
     (s.find? (fun x => x.id == job.id && x.version == job.version)).map
       (applyClaim worker_id now))

/-- One row under `update_progress`'s update (`WHERE id = job_id`): progress
clamped to `[0, 100]`, `current_step` written only when provided. -/
def progressRow (i : Nat) (p : Int) (cs : Option String) (x : Job) : Job :=
  if x.id = i then
    { x with
      progress := min 100 (max 0 p)
      current_step := match cs with
        | some c => some c
        | none => x.current_step }
  else x

/-- `JobRepository.update_progress`: returns the new table and
`rowcount > 0`. -/
def update_progress (s : List Job) (job_id : Nat) (progress : Int)
    (current_step : Option String) : List Job × Bool :=
  (s.map (progressRow job_id progress current_step),
   s.any (fun x => x.id == job_id))

/-- One row under `mark_completed`'s update (`WHERE id = job_id`). -/
def completeRow (i : Nat) (now : Nat) (x : Job) : Job :=
  if x.id = i then
    { x with
      status := JobStatus.completed
      progress := 100
      completed_at := some now }
  else x

/-- `JobRepository.mark_completed`: returns the new table and
`rowcount > 0`. -/
def mark_completed (s : List Job) (job_id : Nat) (now : Nat) : List Job × Bool :=
  (s.map (completeRow job_id now), s.any (fun x => x.id == job_id))

/-- One row under `mark_failed`'s update (`WHERE id = job_id`): error
message sliced to 2000 code points, error code to 50 when truthy. -/
def failRow (i : Nat) (msg : String) (code : Option String) (now : Nat)
    (x : Job) : Job :=
  if x.id = i then
    { x with
      status := JobStatus.failed
      error_message := some (strTruncate 2000 msg)
      error_code := truncCode code
      completed_at := some now }
  else x

/-- `JobRepository.mark_failed`: returns the new table and `rowcount > 0`. -/
def mark_failed (s : List Job) (job_id : Nat) (error_message : String)
    (error_code : Option String) (now : Nat) : List Job × Bool :=
  (s.map (failRow job_id error_message error_code now),
   s.any (fun x => x.id == job_id))

/-- `BaseRepository.get_by_id` from `bookbytes/repositories/base.py`
(inherited by `JobRepository`): `SELECT ... WHERE model.id == id` followed
by `scalar_one_or_none()`, i.e. the row with the given primary key, or
none. -/
def get_by_id (s : List Job) (i : Nat) : Option Job :=
  s.find? (fun x => x.id == i)

/-- One row under `schedule_retry`'s update (`WHERE id = job_id`): `rc` is
the `retry_count` of the record read by `get_by_id` before the update. -/
def retryRow (i : Nat) (rc : Nat) (x : Job) : Job :=
  if x.id = i then
    { x with
      status := JobStatus.pending
      retry_count := rc + 1
      worker_id := none
      started_at := none
      completed_at := none
      error_message := none
      error_code := none }
  else x

/-- `JobRepository.schedule_retry`: read the job, return false (no write)
unless it exists and `can_retry`; otherwise reset it to pending with the
retry counter bumped. -/
def schedule_retry (s : List Job) (job_id : Nat) : List Job × Bool :=
  match get_by_id s job_id with
  | none => (s, false)
  | some job =>
    if can_retry job then
      (s.map (retryRow job_id job.retry_count), true)
    else
      (s, false)

/-- The mutating operations of the store, as one alphabet for traces. -/
inductive StoreOp where
  | claimOp (worker_id : String) (job_type : Option String) (now : Nat) : StoreOp
  | progressOp (job_id : Nat) (progress : Int) (current_step : Option String) : StoreOp
  | completeOp (job_id : Nat) (now : Nat) : StoreOp
  | failOp (job_id : Nat) (msg : String) (code : Option String) (now : Nat) : StoreOp
  | retryOp (job_id : Nat) : StoreOp
deriving DecidableEq, Repr

/-- Effect of one store operation on the table. -/
def applyOp (s : List Job) : StoreOp → List Job
  | StoreOp.claimOp w f now => (claim_next s w f now).1
  | StoreOp.progressOp i p cs => (update_progress s i p cs).1
  | StoreOp.completeOp i now => (mark_completed s i now).1
  | StoreOp.failOp i m c now => (mark_failed s i m c now).1
  | StoreOp.retryOp i => (schedule_retry s i).1

/-- Run a sequence of store operations. -/
def run (s : List Job) (ops : List StoreOp) : List Job :=
  ops.foldl applyOp s

/-- The stored version of id `i`, or 0 when the id is absent. -/
def versionOf (s : List Job) (i : Nat) : Nat :=
  match s.find? (fun x => x.id == i) with
  | some j => j.version
  | none => 0

/-! ## Interleaving model for concurrent claims

`claim_next` is two store round-trips: the SELECT that reads the candidate
row and the conditional UPDATE keyed on the `(id, version)` pair it read.
Concurrent workers interleave at exactly that granularity, so a worker is
modelled as a two-phase process over the shared table. -/

/-- Phase of one worker's in-flight `claim_next` call: not started yet,
holding the `(id, version)` pair read by its SELECT, or finished with its
return value. -/
inductive WorkerPhase where
  | idle : WorkerPhase
  | selected (id version : Nat) : WorkerPhase
  | done (result : Option Job) : WorkerPhase
deriving DecidableEq, Repr

/-- The shared table plus the phase of every concurrent `claim_next` call. -/
structure ClaimSystem where
  store : List Job
  workers : List WorkerPhase
deriving DecidableEq, Repr

/-- The SELECT of `claim_next`: oldest row satisfying the claim query. -/
def selectStep (s : List Job) (f : Option String) : Option Job :=
  oldest (s.filter (claimQueryPred f))

/-- One atomic step of worker `t.1` (worker id `t.2.1`, clock `t.2.2`): an
idle worker runs the SELECT (finishing at once with none when no row
qualifies), a worker holding a selected pair runs the conditional
`UPDATE ... RETURNING`, and a finished worker does nothing. -/
def workerStep (f : Option String) (sys : ClaimSystem)
    (t : Nat × String × Nat) : ClaimSystem :=
  match sys.workers[t.1]? with
  | none => sys
  | some WorkerPhase.idle =>
    match selectStep sys.store f with
    | none =>
      { sys with workers := sys.workers.set t.1 (WorkerPhase.done none) }
    | some j =>
      { sys with
        workers := sys.workers.set t.1 (WorkerPhase.selected j.id j.version) }
  | some (WorkerPhase.selected i v) =>
    { store := sys.store.map (claimUpdateRow i v t.2.1 t.2.2)
      workers := sys.workers.set t.1
        (WorkerPhase.done
          ((sys.store.find? (fun x => x.id == i && x.version == v)).map
            (applyClaim t.2.1 t.2.2))) }
  | some (WorkerPhase.done _) => sys

/-- Run an arbitrary interleaving of worker steps. -/
def runSystem (f : Option String) (sys : ClaimSystem)
    (sched : List (Nat × String × Nat)) : ClaimSystem :=
  sched.foldl (workerStep f) sys

/-- A finished call that returned the claimed job `j0`: the result record
has the same id, status PROCESSING and the bumped version. -/
def isSuccessFor (j0 : Job) : WorkerPhase → Bool
  | WorkerPhase.done (some c) =>
    c.id == j0.id && c.status == JobStatus.processing &&
      c.version == j0.version + 1
  | _ => false

/-- A finished call. -/
def isDone : WorkerPhase → Bool
  | WorkerPhase.done _ => true
  | _ => false

/-- Inductive invariant for interleaved claims over a table `s0` whose only
selectable row is `j0`: either no conditional update has succeeded yet (the
table is unchanged and every call is idle or holds `(j0.id, j0.version)`),
or exactly one has (the row is claimed, and every other call is idle, holds
the now-stale pair, or has already returned none). -/
def SysInv (s0 : List Job) (j0 : Job) (sys : ClaimSystem) : Prop :=
  (sys.store = s0 ∧ ∀ w ∈ sys.workers,
    w = WorkerPhase.idle ∨ w = WorkerPhase.selected j0.id j0.version) ∨
  ((∃ wid now, sys.store =
      s0.map (claimUpdateRow j0.id j0.version wid now)) ∧
    sys.workers.countP (isSuccessFor j0) = 1 ∧
    ∀ w ∈ sys.workers,
      w = WorkerPhase.idle ∨ w = WorkerPhase.selected j0.id j0.version ∨
      w = WorkerPhase.done none ∨ isSuccessFor j0 w = true)

/-! ## Basic lemmas about the table and the row updates -/

theorem idInj {s : List Job} (h : (s.map Job.id).Nodup) {x y : Job}
    (hx : x ∈ s) (hy : y ∈ s) (hid : x.id = y.id) : x = y := by
  induction s with
  | nil => cases hx
  | cons a t ih =>
    simp only [List.map_cons, List.nodup_cons] at h
    rcases List.mem_cons.mp hx with rfl | hx' <;>
      rcases List.mem_cons.mp hy with rfl | hy'
    · rfl
    · exact absurd (hid ▸ List.mem_map_of_mem Job.id hy') h.1
    · exact absurd (hid ▸ List.mem_map_of_mem Job.id hx') (by simpa [hid] using h.1)
    · exact ih h.2 hx' hy'

theorem oldest_mem : ∀ {l : List Job} {j : Job}, oldest l = some j → j ∈ l := by
  intro l
  induction l with
  | nil => intro j h; simp [oldest] at h
  | cons a t ih =>
    intro j h
    simp only [oldest] at h
    cases ht : oldest t with
    | none =>
      rw [ht] at h
      cases h
      exact List.mem_cons_self a t
    | some b =>
      rw [ht] at h
      by_cases hc : a.created_at ≤ b.created_at
      · simp only [hc, if_true] at h
        cases h
        exact List.mem_cons_self a t
      · simp only [hc, if_false] at h
        cases h
        exact List.mem_cons_of_mem a (ih ht)

theorem applyClaim_id (w : String) (now : Nat) (x : Job) :
    (applyClaim w now x).id = x.id := rfl

theorem claimUpdateRow_id (i v : Nat) (w : String) (now : Nat) (x : Job) :
    (claimUpdateRow i v w now x).id = x.id := by
  unfold claimUpdateRow; split <;> rfl

theorem progressRow_id (i : Nat) (p : Int) (cs : Option String) (x : Job) :
    (progressRow i p cs x).id = x.id := by
  unfold progressRow; split <;> rfl

theorem completeRow_id (i : Nat) (now : Nat) (x : Job) :
    (completeRow i now x).id = x.id := by
  unfold completeRow; split <;> rfl

theorem failRow_id (i : Nat) (msg : String) (code : Option String) (now : Nat)
    (x : Job) : (failRow i msg code now x).id = x.id := by
  unfold failRow; split <;> rfl

theorem retryRow_id (i rc : Nat) (x : Job) : (retryRow i rc x).id = x.id := by
  unfold retryRow; split <;> rfl

theorem claimUpdateRow_version (i v : Nat) (w : String) (now : Nat) (x : Job) :
    x.version ≤ (claimUpdateRow i v w now x).version := by
  unfold claimUpdateRow applyClaim
  split
  · exact Nat.le_succ _
  · exact Nat.le_refl _

theorem progressRow_version (i : Nat) (p : Int) (cs : Option String) (x : Job) :
    (progressRow i p cs x).version = x.version := by
  unfold progressRow; split <;> rfl

theorem completeRow_version (i : Nat) (now : Nat) (x : Job) :
    (completeRow i now x).version = x.version := by
  unfold completeRow; split <;> rfl

theorem failRow_version (i : Nat) (msg : String) (code : Option String)
    (now : Nat) (x : Job) : (failRow i msg code now x).version = x.version := by
  unfold failRow; split <;> rfl

theorem retryRow_version (i rc : Nat) (x : Job) :
    (retryRow i rc x).version = x.version := by
  unfold retryRow; split <;> rfl

theorem ids_map_of_preserve {g : Job → Job} (hg : ∀ x, (g x).id = x.id)
    (s : List Job) : (s.map g).map Job.id = s.map Job.id := by
  rw [List.map_map]
  exact List.map_congr_left (fun a _ => hg a)

/-- Every store operation leaves the table alone or maps an id-preserving,
version-nondecreasing row function over it. -/
theorem applyOp_shape (s : List Job) (op : StoreOp) :
    applyOp s op = s ∨ ∃ g : Job → Job, applyOp s op = s.map g ∧
      (∀ x, (g x).id = x.id) ∧ (∀ x, x.version ≤ (g x).version) := by
  cases op with
  | claimOp w f now =>
    simp only [applyOp, claim_next]
    cases holdest : oldest (s.filter (claimQueryPred f)) with
    | none => exact Or.inl rfl
    | some job =>
      exact Or.inr ⟨claimUpdateRow job.id job.version w now, rfl,
        claimUpdateRow_id job.id job.version w now,
        claimUpdateRow_version job.id job.version w now⟩
  | progressOp i p cs =>
    exact Or.inr ⟨progressRow i p cs, rfl, progressRow_id i p cs,
      fun x => (progressRow_version i p cs x).ge⟩
  | completeOp i now =>
    exact Or.inr ⟨completeRow i now, rfl, completeRow_id i now,
      fun x => (completeRow_version i now x).ge⟩
  | failOp i m c now =>
    exact Or.inr ⟨failRow i m c now, rfl, failRow_id i m c now,
      fun x => (failRow_version i m c now x).ge⟩
  | retryOp i =>
    simp only [applyOp, schedule_retry]
    cases hg : get_by_id s i with
    | none => exact Or.inl rfl
    | some job =>
      dsimp only
      by_cases hr : can_retry job = true
      · rw [if_pos hr]
        exact Or.inr ⟨retryRow i job.retry_count, rfl,
          retryRow_id i job.retry_count,
          fun x => (retryRow_version i job.retry_count x).ge⟩
      · rw [if_neg hr]
        exact Or.inl rfl

theorem ids_applyOp (s : List Job) (op : StoreOp) :
    (applyOp s op).map Job.id = s.map Job.id := by
  rcases applyOp_shape s op with h | ⟨g, h, hg, _⟩
  · rw [h]
  · rw [h]; exact ids_map_of_preserve hg s

theorem ids_run (s : List Job) (ops : List StoreOp) :
    (run s ops).map Job.id = s.map Job.id := by
  induction ops generalizing s with
  | nil => rfl
  | cons op t ih =>
    show (run (applyOp s op) t).map Job.id = s.map Job.id
    rw [ih (applyOp s op), ids_applyOp]

theorem find?_map_idkey {g : Job → Job} (hg : ∀ x, (g x).id = x.id)
    (s : List Job) (i : Nat) :
    (s.map g).find? (fun x => x.id == i) =
      (s.find? (fun x => x.id == i)).map g := by
  have hp : ((fun x : Job => x.id == i) ∘ g) = fun x : Job => x.id == i := by
    funext x
    simp [Function.comp, hg x]
  rw [List.find?_map, hp]

theorem versionOf_le_map {g : Job → Job} (hg : ∀ x, (g x).id = x.id)
    (hv : ∀ x, x.version ≤ (g x).version) (s : List Job) (i : Nat) :
    versionOf s i ≤ versionOf (s.map g) i := by
  unfold versionOf
  rw [find?_map_idkey hg]
  cases s.find? (fun x => x.id == i) with
  | none => simp
  | some j => simpa using hv j

theorem versionOf_mono_applyOp (s : List Job) (op : StoreOp) (i : Nat) :
    versionOf s i ≤ versionOf (applyOp s op) i := by
  rcases applyOp_shape s op with h | ⟨g, h, hg, hv⟩
  · rw [h]
  · rw [h]; exact versionOf_le_map hg hv s i

theorem versionOf_mono_run (s : List Job) (ops : List StoreOp) (i : Nat) :
    versionOf s i ≤ versionOf (run s ops) i := by
  induction ops generalizing s with
  | nil => exact Nat.le_refl _
  | cons op t ih =>
    exact Nat.le_trans (versionOf_mono_applyOp s op i)
      (ih (applyOp s op))

theorem find?_id_of_mem {s : List Job} (hnd : (s.map Job.id).Nodup) {j : Job}
    (hj : j ∈ s) : s.find? (fun x => x.id == j.id) = some j := by
  cases hfind : s.find? (fun x => x.id == j.id) with
  | none =>
    rw [List.find?_eq_none] at hfind
    exact absurd (by simp : (j.id == j.id) = true) (hfind j hj)
  | some y =>
    have hy := List.find?_some hfind
    have hmem := List.mem_of_find?_eq_some hfind
    have : y = j := idInj hnd hmem hj (by simpa using hy)
    rw [this]

theorem versionOf_of_mem {s : List Job} (hnd : (s.map Job.id).Nodup) {j : Job}
    (hj : j ∈ s) : versionOf s j.id = j.version := by
  unfold versionOf
  rw [find?_id_of_mem hnd hj]

/-- Characterization of a successful `claim_next` on a table with unique
ids: the row it claims is the selected pending row, the returned record is
that row with the claim values applied, and the stored version of that id
goes from `j.version` to `j.version + 1`. -/
theorem claim_next_success {s s1 : List Job} {w : String} {f : Option String}
    {now : Nat} {c : Job} (hnd : (s.map Job.id).Nodup)
    (h : claim_next s w f now = (s1, some c)) :
    ∃ j, j ∈ s ∧ claimQueryPred f j = true ∧ c = applyClaim w now j ∧
      s1 = s.map (claimUpdateRow j.id j.version w now) ∧
      versionOf s c.id = j.version ∧ versionOf s1 c.id = j.version + 1 := by
  unfold claim_next at h
  cases holdest : oldest (s.filter (claimQueryPred f)) with
  | none =>
    rw [holdest] at h
    exact absurd (congrArg Prod.snd h) (by simp)
  | some job =>
    rw [holdest] at h
    have hs1 : s1 = s.map (claimUpdateRow job.id job.version w now) :=
      (congrArg Prod.fst h).symm
    have hc : (s.find? (fun x => x.id == job.id && x.version == job.version)).map
        (applyClaim w now) = some c := congrArg Prod.snd h
    rcases Option.map_eq_some'.mp hc with ⟨x, hx, hxc⟩
    have px := List.find?_some hx
    simp only [Bool.and_eq_true, beq_iff_eq] at px
    have hxmem := List.mem_of_find?_eq_some hx
    have hjobf := List.mem_filter.mp (oldest_mem holdest)
    have hxj : x = job := idInj hnd hxmem hjobf.1 px.1
    subst hxj
    have hcid : c.id = x.id := by rw [← hxc]; rfl
    refine ⟨x, hjobf.1, hjobf.2, hxc.symm, hs1, ?_, ?_⟩
    · rw [hcid]
      exact versionOf_of_mem hnd hjobf.1
    · rw [hs1, hcid]
      unfold versionOf
      rw [find?_map_idkey (claimUpdateRow_id x.id x.version w now) s x.id,
        find?_id_of_mem hnd hjobf.1]
      show (claimUpdateRow x.id x.version w now x).version = x.version + 1
      rw [claimUpdateRow, if_pos ⟨rfl, rfl⟩]
      rfl

/-- C2: after a successful claim the returned record's version is exactly
one more than the stored version of that job immediately before the claim,
and across successive successful claims of the same id, with any store
operations in between (including retries), the returned versions strictly
increase. -/
theorem claim_version_monotonicity :
    (∀ (s s1 : List Job) (w : String) (f : Option String) (now : Nat) (c : Job),
      (s.map Job.id).Nodup → claim_next s w f now = (s1, some c) →
      ∃ j, j ∈ s ∧ j.id = c.id ∧ c.version = j.version + 1 ∧
        versionOf s c.id = j.version) ∧
    (∀ (s s1 s3 : List Job) (w w2 : String) (f f2 : Option String)
      (now now2 : Nat) (c1 c2 : Job) (ops : List StoreOp),
      (s.map Job.id).Nodup →
      claim_next s w f now = (s1, some c1) →
      claim_next (run s1 ops) w2 f2 now2 = (s3, some c2) →
      c2.id = c1.id →
      c1.version < c2.version) := by
  constructor
  · intro s s1 w f now c hnd h
    rcases claim_next_success hnd h with ⟨j, hjs, _, hcj, _, hv, _⟩
    refine ⟨j, hjs, ?_, ?_, hv⟩
    · rw [hcj]; rfl
    · rw [hcj]; rfl
  · intro s s1 s3 w w2 f f2 now now2 c1 c2 ops hnd h1 h2 hid
    rcases claim_next_success hnd h1 with ⟨j1, _, _, hc1, hs1, _, hv1⟩
    have hnd1 : (s1.map Job.id).Nodup := by
      rw [hs1, ids_map_of_preserve (claimUpdateRow_id j1.id j1.version w now)]
      exact hnd
    have hnd2 : ((run s1 ops).map Job.id).Nodup := by
      rw [ids_run]
      exact hnd1
    rcases claim_next_success hnd2 h2 with ⟨j2, _, _, hc2, _, hv2, _⟩
    have hmono : versionOf s1 c1.id ≤ versionOf (run s1 ops) c1.id :=
      versionOf_mono_run s1 ops c1.id
    have hc1v : c1.version = j1.version + 1 := by rw [hc1]; rfl
    have hc2v : c2.version = j2.version + 1 := by rw [hc2]; rfl
    rw [hid] at hv2
    omega

/-- Witness for C2 at a concrete table: one fresh pending job, claimed,
failed, retried and claimed again; versions 2 and then 3. -/
theorem claim_version_monotonicity_witness :
    (∃ j, j ∈ [create_job 1 "generate" 0 3] ∧ j.id = 1 ∧ 2 = j.version + 1 ∧
      versionOf [create_job 1 "generate" 0 3] 1 = j.version) ∧
    (applyClaim "w1" 5 (create_job 1 "generate" 0 3)).version <
      (applyClaim "w2" 9
        { create_job 1 "generate" 0 3 with
          status := JobStatus.pending, version := 2, retry_count := 1 }).version := by
  constructor
  · have hnd : (([create_job 1 "generate" 0 3]).map Job.id).Nodup := by decide
    have h := (claim_version_monotonicity.1 [create_job 1 "generate" 0 3]
      ((claim_next [create_job 1 "generate" 0 3] "w1" none 5).1) "w1" none 5
      (applyClaim "w1" 5 (create_job 1 "generate" 0 3)) hnd (by decide))
    rcases h with ⟨j, hj, hid, hv, hvo⟩
    exact ⟨j, hj, hid, hv, hvo⟩
  · have hnd : (([create_job 1 "generate" 0 3]).map Job.id).Nodup := by decide
    exact claim_version_monotonicity.2 [create_job 1 "generate" 0 3]
      ((claim_next [create_job 1 "generate" 0 3] "w1" none 5).1)
      ((claim_next (run ((claim_next [create_job 1 "generate" 0 3] "w1" none 5).1)
        [StoreOp.failOp 1 "boom" none 6, StoreOp.retryOp 1]) "w2" none 9).1)
      "w1" "w2" none none 5 9
      (applyClaim "w1" 5 (create_job 1 "generate" 0 3))
      (applyClaim "w2" 9
        { create_job 1 "generate" 0 3 with
          status := JobStatus.pending, version := 2, retry_count := 1 })
      [StoreOp.failOp 1 "boom" none 6, StoreOp.retryOp 1]
      hnd (by decide) (by decide) (by decide)

/-- C10: passing the empty string as the job type filter behaves exactly
like passing no filter, because the filter clause is added only when the
argument is truthy. -/
theorem claim_next_empty_filter (s : List Job) (w : String) (now : Nat) :
    claim_next s w (some "") now = claim_next s w none now := by
  have hp : claimQueryPred (some "") = claimQueryPred none := by
    funext j
    simp [claimQueryPred, isTruthy]
  unfold claim_next
  rw [hp]

/-- C8: update_progress stores the progress clamped into [0, 100], writes
current_step only when one is provided, changes no other field and no other
row, applies regardless of the row's status, and returns true exactly when
the id exists. -/
theorem update_progress_spec (s : List Job) (i : Nat) (p : Int)
    (cs : Option String) :
    ((update_progress s i p cs).2 = true ↔ ∃ j ∈ s, j.id = i) ∧
    (update_progress s i p cs).1 = s.map (progressRow i p cs) ∧
    (∀ x : Job, x.id ≠ i → progressRow i p cs x = x) ∧
    (∀ x : Job, x.id = i →
      (progressRow i p cs x).progress = min 100 (max 0 p) ∧
      0 ≤ (progressRow i p cs x).progress ∧
      (progressRow i p cs x).progress ≤ 100 ∧
      (progressRow i p cs x).current_step =
        (match cs with | some c => some c | none => x.current_step) ∧
      (progressRow i p cs x).status = x.status ∧
      (progressRow i p cs x).worker_id = x.worker_id ∧
      (progressRow i p cs x).version = x.version ∧
      (progressRow i p cs x).retry_count = x.retry_count ∧
      (progressRow i p cs x).error_message = x.error_message ∧
      (progressRow i p cs x).started_at = x.started_at ∧
      (progressRow i p cs x).completed_at = x.completed_at) := by
  refine ⟨?_, rfl, ?_, ?_⟩
  · simp [update_progress, List.any_eq_true]
  · intro x hx
    simp [progressRow, hx]
  · intro x hx
    unfold progressRow
    rw [if_pos hx]
    dsimp only
    exact ⟨rfl, by omega, by omega, rfl, rfl, rfl, rfl, rfl, rfl, rfl, rfl⟩

/-- Witness for C8: job id 1 exists, and an out-of-range progress of 150 is
stored as 100. -/
theorem update_progress_spec_witness :
    (update_progress [create_job 1 "t" 0 3] 1 150 (some "step")).2 = true ∧
    (progressRow 1 150 (some "step") (create_job 1 "t" 0 3)).progress = 100 := by
  have h := update_progress_spec [create_job 1 "t" 0 3] 1 150 (some "step")
  constructor
  · exact h.1.mpr ⟨create_job 1 "t" 0 3, List.mem_singleton.mpr rfl, rfl⟩
  · rw [(h.2.2.2 (create_job 1 "t" 0 3) rfl).1]
    decide

/-- C7 counterexample: a second mark_completed call overwrites completed_at
with its own timestamp (9), so completed_at does not remain at the first
call's value (5). -/
theorem mark_completed_twice_counterexample :
    ((mark_completed ((mark_completed [create_job 1 "t" 0 3] 1 5).1) 1 9).1.head?).map
      Job.completed_at = some (some 9) ∧
    ((mark_completed [create_job 1 "t" 0 3] 1 5).1.head?).map Job.completed_at =
      some (some 5) ∧
    (some (9 : Nat) : Option Nat) ≠ some 5 := by
  decide

/-- C7 amended: calling mark_completed twice is idempotent in effect up to
the completion timestamp: the double call equals a single call made at the
second time, both calls return the same boolean, the boolean is true exactly
when the id exists, and the final record is COMPLETED with progress 100 and
completed_at set to the second call's time. -/
theorem mark_completed_twice (s : List Job) (i n1 n2 : Nat) :
    (mark_completed (mark_completed s i n1).1 i n2).1 =
      (mark_completed s i n2).1 ∧
    (mark_completed (mark_completed s i n1).1 i n2).2 =
      (mark_completed s i n1).2 ∧
    ((mark_completed s i n1).2 = true ↔ ∃ j ∈ s, j.id = i) ∧
    (∀ x ∈ (mark_completed (mark_completed s i n1).1 i n2).1, x.id = i →
      x.status = JobStatus.completed ∧ x.progress = 100 ∧
      x.completed_at = some n2) := by
  refine ⟨?_, ?_, ?_, ?_⟩
  · show ((s.map (completeRow i n1)).map (completeRow i n2)) =
      s.map (completeRow i n2)
    rw [List.map_map]
    refine List.map_congr_left fun x _ => ?_
    by_cases hx : x.id = i <;> simp [Function.comp, completeRow, hx]
  · show ((s.map (completeRow i n1)).any fun x => x.id == i) =
      (s.any fun x => x.id == i)
    rw [List.any_map]
    have hcomp : ((fun x : Job => x.id == i) ∘ completeRow i n1) =
        fun x : Job => x.id == i := by
      funext x
      simp [Function.comp, completeRow_id]
    rw [hcomp]
  · simp [mark_completed, List.any_eq_true]
  · intro x hx hid
    simp only [mark_completed, List.map_map] at hx
    rcases List.mem_map.mp hx with ⟨y, _, hy⟩
    have hyid : y.id = i := by
      rw [← hid, ← hy]
      simp [Function.comp, completeRow_id]
    rw [← hy]
    simp [Function.comp, completeRow, hyid]

/-- Witness for C7 at a singleton table: the first call returns true and the
double call ends COMPLETED. -/
theorem mark_completed_twice_witness :
    (mark_completed [create_job 1 "t" 0 3] 1 5).2 = true ∧
    (∀ x ∈ (mark_completed (mark_completed [create_job 1 "t" 0 3] 1 5).1 1 9).1,
      x.id = 1 → x.status = JobStatus.completed) := by
  have h := mark_completed_twice [create_job 1 "t" 0 3] 1 5 9
  exact ⟨h.2.2.1.mpr ⟨create_job 1 "t" 0 3, List.mem_singleton.mpr rfl, rfl⟩,
    fun x hx hid => ((h.2.2.2 x hx hid).1)⟩

/-- C9 counterexample: an empty-string error_code is stored as null, not as
the empty string truncated to 50 characters, because the code checks Python
truthiness before slicing. -/
theorem mark_failed_empty_code_counterexample :
    ((mark_failed [create_job 1 "t" 0 3] 1 "msg" (some "") 5).1.head?).map
      Job.error_code = some none ∧
    Option.map (fun c : String => strTruncate 50 c) (some "") = some "" ∧
    (some "" : Option String) ≠ (none : Option String) := by
  refine ⟨?_, ?_, ?_⟩ <;> decide

/-- C9 amended: mark_failed sets status FAILED and completed_at, stores the
message truncated to 2000 characters; a non-empty error_code is stored
truncated to 50 characters but an absent or empty error_code is stored as
null; the write ignores the retry budget (retry_count and max_retries are
untouched and unconsulted) and the call returns false exactly when the id
is missing. -/
theorem mark_failed_spec (s : List Job) (i : Nat) (msg : String)
    (code : Option String) (now : Nat) :
    ((mark_failed s i msg code now).2 = true ↔ ∃ j ∈ s, j.id = i) ∧
    (mark_failed s i msg code now).1 = s.map (failRow i msg code now) ∧
    (∀ x : Job, x.id ≠ i → failRow i msg code now x = x) ∧
    (strTruncate 2000 msg).length ≤ 2000 ∧
    (∀ st ∈ truncCode code, st.length ≤ 50) ∧
    (∀ c, code = some c → c ≠ "" → truncCode code = some (strTruncate 50 c)) ∧
    ((code = none ∨ code = some "") → truncCode code = none) ∧
    (∀ x : Job, x.id = i →
      (failRow i msg code now x).status = JobStatus.failed ∧
      (failRow i msg code now x).completed_at = some now ∧
      (failRow i msg code now x).error_message = some (strTruncate 2000 msg) ∧
      (failRow i msg code now x).error_code = truncCode code ∧
      (failRow i msg code now x).retry_count = x.retry_count ∧
      (failRow i msg code now x).max_retries = x.max_retries ∧
      (failRow i msg code now x).worker_id = x.worker_id ∧
      (failRow i msg code now x).started_at = x.started_at ∧
      (failRow i msg code now x).version = x.version ∧
      (failRow i msg code now x).progress = x.progress) := by
  refine ⟨?_, rfl, ?_, ?_, ?_, ?_, ?_, ?_⟩
  · simp [mark_failed, List.any_eq_true]
  · intro x hx
    simp [failRow, hx]
  · show ((msg.data.take 2000).asString).length ≤ 2000
    show (msg.data.take 2000).length ≤ 2000
    rw [List.length_take]
    exact Nat.min_le_left _ _
  · intro st hst
    unfold truncCode at hst
    by_cases hc : isTruthy code = true
    · rw [if_pos hc] at hst
      simp only [Option.mem_def, Option.some.injEq] at hst
      rw [← hst]
      show ((code.getD "").data.take 50).length ≤ 50
      rw [List.length_take]
      exact Nat.min_le_left _ _
    · rw [if_neg hc] at hst
      cases hst
  · intro c hc hne
    subst hc
    have ht : isTruthy (some c) = true := by
      simp [isTruthy, hne]
    unfold truncCode
    rw [if_pos ht]
    rfl
  · intro hc
    have ht : isTruthy code = false := by
      rcases hc with rfl | rfl <;> simp [isTruthy]
    unfold truncCode
    rw [ht]
    rfl
  · intro x hx
    unfold failRow
    rw [if_pos hx]
    dsimp only
    exact ⟨rfl, rfl, rfl, rfl, rfl, rfl, rfl, rfl, rfl, rfl⟩

/-- Witness for C9: a long message is truncated and a non-empty code is
stored truncated; the call reports success on an existing id. -/
theorem mark_failed_spec_witness :
    (mark_failed [create_job 1 "t" 0 3] 1 "msg" (some "E_X") 5).2 = true ∧
    truncCode (some "E_X") = some (strTruncate 50 "E_X") ∧
    truncCode (some "") = none ∧
    (failRow 1 "msg" (some "E_X") 5 (create_job 1 "t" 0 3)).status =
      JobStatus.failed := by
  have h := mark_failed_spec [create_job 1 "t" 0 3] 1 "msg" (some "E_X") 5
  have h2 := mark_failed_spec [create_job 1 "t" 0 3] 1 "msg" (some "") 5
  refine ⟨h.1.mpr ⟨create_job 1 "t" 0 3, List.mem_singleton.mpr rfl, rfl⟩, ?_, ?_, ?_⟩
  · exact h.2.2.2.2.2.1 "E_X" rfl (by decide)
  · exact h2.2.2.2.2.2.2.1 (Or.inr rfl)
  · exact ((h.2.2.2.2.2.2.2 (create_job 1 "t" 0 3)) rfl).1

/-- C5 counterexample: claim, fail, then retry a fresh job; the retried
record keeps version 2, so it does not equal a freshly created record with
the retry counter bumped (whose version is 1). -/
theorem schedule_retry_not_fresh_counterexample :
    run [create_job 1 "t" 0 3]
      [StoreOp.claimOp "w" none 1, StoreOp.failOp 1 "e" none 2,
       StoreOp.retryOp 1] =
      [{ create_job 1 "t" 0 3 with version := 2, retry_count := 1 }] ∧
    ({ create_job 1 "t" 0 3 with version := 2, retry_count := 1 } : Job) ≠
      { create_job 1 "t" 0 3 with retry_count := 1 } ∧
    ({ create_job 1 "t" 0 3 with version := 2, retry_count := 1 } : Job).version = 2 ∧
    ({ create_job 1 "t" 0 3 with retry_count := 1 } : Job).version = 1 := by
  refine ⟨?_, ?_, rfl, rfl⟩ <;> decide

/-- C5 amended: when the job exists with status FAILED and retry budget
left, schedule_retry succeeds and resets the record to PENDING with
retry_count incremented and worker_id, started_at, completed_at,
error_message, error_code all null — but it retains progress, current_step,
version (and job_type, created_at, max_retries) from the failed run, so the
record is not identical to a freshly created one. -/
theorem schedule_retry_success_spec (s s1 : List Job) (i : Nat)
    (h : schedule_retry s i = (s1, true)) :
    ∃ j, j ∈ s ∧ j.id = i ∧ j.status = JobStatus.failed ∧
      j.retry_count < j.max_retries ∧
      s1 = s.map (retryRow i j.retry_count) ∧
      retryRow i j.retry_count j =
        { j with
          status := JobStatus.pending
          retry_count := j.retry_count + 1
          worker_id := none
          started_at := none
          completed_at := none
          error_message := none
          error_code := none } ∧
      (retryRow i j.retry_count j).progress = j.progress ∧
      (retryRow i j.retry_count j).current_step = j.current_step ∧
      (retryRow i j.retry_count j).version = j.version ∧
      (retryRow i j.retry_count j).job_type = j.job_type ∧
      (retryRow i j.retry_count j).created_at = j.created_at ∧
      (retryRow i j.retry_count j).max_retries = j.max_retries ∧
      (∀ x : Job, x.id ≠ i → retryRow i j.retry_count x = x) := by
  unfold schedule_retry at h
  cases hfind : get_by_id s i with
  | none =>
    rw [hfind] at h
    exact absurd (congrArg Prod.snd h) (by simp)
  | some job =>
    rw [hfind] at h
    dsimp only at h
    by_cases hr : can_retry job = true
    · rw [if_pos hr] at h
      have hs1 : s1 = s.map (retryRow i job.retry_count) :=
        (congrArg Prod.fst h).symm
      have hmem : job ∈ s := List.mem_of_find?_eq_some hfind
      have hid : job.id = i := by
        have := List.find?_some hfind
        simpa using this
      simp only [can_retry, Bool.and_eq_true, beq_iff_eq, decide_eq_true_eq] at hr
      refine ⟨job, hmem, hid, hr.1, hr.2, hs1, ?_, ?_, ?_, ?_, ?_, ?_, ?_, ?_⟩
      · unfold retryRow
        rw [if_pos hid]
      · unfold retryRow
        rw [if_pos hid]
      · unfold retryRow
        rw [if_pos hid]
      · unfold retryRow
        rw [if_pos hid]
      · unfold retryRow
        rw [if_pos hid]
      · unfold retryRow
        rw [if_pos hid]
      · unfold retryRow
        rw [if_pos hid]
      · intro x hx
        unfold retryRow
        rw [if_neg hx]
    · rw [if_neg hr] at h
      exact absurd (congrArg Prod.snd h) (by simp)

/-- Witness for C5: retrying a concrete failed job with budget left. -/
theorem schedule_retry_success_spec_witness :
    ∃ j, j ∈ [{ create_job 1 "t" 0 3 with
        status := JobStatus.failed, version := 2,
        worker_id := some "w", started_at := some 1, completed_at := some 2,
        error_message := some "e" }] ∧
      j.id = 1 ∧ j.status = JobStatus.failed ∧ j.retry_count < j.max_retries := by
  have h := schedule_retry_success_spec
    [{ create_job 1 "t" 0 3 with
        status := JobStatus.failed, version := 2,
        worker_id := some "w", started_at := some 1, completed_at := some 2,
        error_message := some "e" }]
    ((schedule_retry
      [{ create_job 1 "t" 0 3 with
          status := JobStatus.failed, version := 2,
          worker_id := some "w", started_at := some 1, completed_at := some 2,
          error_message := some "e" }] 1).1)
    1 (by decide)
  rcases h with ⟨j, hmem, hid, hst, hbudget, _⟩
  exact ⟨j, hmem, hid, hst, hbudget⟩

theorem claimUpdateRow_retry (i v : Nat) (w : String) (now : Nat) (x : Job) :
    (claimUpdateRow i v w now x).retry_count = x.retry_count ∧
    (claimUpdateRow i v w now x).max_retries = x.max_retries := by
  unfold claimUpdateRow applyClaim
  split <;> exact ⟨rfl, rfl⟩

theorem progressRow_retry (i : Nat) (p : Int) (cs : Option String) (x : Job) :
    (progressRow i p cs x).retry_count = x.retry_count ∧
    (progressRow i p cs x).max_retries = x.max_retries := by
  unfold progressRow
  split <;> exact ⟨rfl, rfl⟩

theorem completeRow_retry (i now : Nat) (x : Job) :
    (completeRow i now x).retry_count = x.retry_count ∧
    (completeRow i now x).max_retries = x.max_retries := by
  unfold completeRow
  split <;> exact ⟨rfl, rfl⟩

theorem failRow_retry (i : Nat) (msg : String) (code : Option String)
    (now : Nat) (x : Job) :
    (failRow i msg code now x).retry_count = x.retry_count ∧
    (failRow i msg code now x).max_retries = x.max_retries := by
  unfold failRow
  split <;> exact ⟨rfl, rfl⟩

theorem retry_bound_of_map {g : Job → Job}
    (hg : ∀ x, (g x).retry_count = x.retry_count ∧
      (g x).max_retries = x.max_retries)
    {s : List Job} (hinv : ∀ j ∈ s, j.retry_count ≤ j.max_retries) :
    ∀ j ∈ s.map g, j.retry_count ≤ j.max_retries := by
  intro j hj
  rcases List.mem_map.mp hj with ⟨x, hx, rfl⟩
  rw [(hg x).1, (hg x).2]
  exact hinv x hx

/-- One store operation preserves the retry bound on every row of a table
with unique ids. -/
theorem retry_bound_applyOp (s : List Job) (op : StoreOp)
    (hnd : (s.map Job.id).Nodup)
    (hinv : ∀ j ∈ s, j.retry_count ≤ j.max_retries) :
    ∀ j ∈ applyOp s op, j.retry_count ≤ j.max_retries := by
  cases op with
  | claimOp w f now =>
    simp only [applyOp, claim_next]
    cases holdest : oldest (s.filter (claimQueryPred f)) with
    | none => exact hinv
    | some job =>
      exact retry_bound_of_map
        (claimUpdateRow_retry job.id job.version w now) hinv
  | progressOp i p cs =>
    exact retry_bound_of_map (progressRow_retry i p cs) hinv
  | completeOp i now =>
    exact retry_bound_of_map (completeRow_retry i now) hinv
  | failOp i m c now =>
    exact retry_bound_of_map (failRow_retry i m c now) hinv
  | retryOp i =>
    simp only [applyOp, schedule_retry]
    cases hfind : get_by_id s i with
    | none => exact hinv
    | some job =>
      dsimp only
      by_cases hr : can_retry job = true
      · rw [if_pos hr]
        dsimp only
        intro j hj
        rcases List.mem_map.mp hj with ⟨x, hx, rfl⟩
        by_cases hxi : x.id = i
        · have hjid : job.id = i := by
            simpa using List.find?_some hfind
          have hxjob : x = job :=
            idInj hnd hx (List.mem_of_find?_eq_some hfind) (hxi.trans hjid.symm)
          simp only [can_retry, Bool.and_eq_true, decide_eq_true_eq] at hr
          unfold retryRow
          rw [if_pos hxi]
          show job.retry_count + 1 ≤ x.max_retries
          rw [hxjob]
          exact hr.2
        · unfold retryRow
          rw [if_neg hxi]
          exact hinv x hx
      · rw [if_neg hr]
        exact hinv

theorem retry_bound_run (s : List Job) (ops : List StoreOp)
    (hnd : (s.map Job.id).Nodup)
    (hinv : ∀ j ∈ s, j.retry_count ≤ j.max_retries) :
    ∀ j ∈ run s ops, j.retry_count ≤ j.max_retries := by
  induction ops generalizing s with
  | nil => exact hinv
  | cons op t ih =>
    show ∀ j ∈ run (applyOp s op) t, j.retry_count ≤ j.max_retries
    refine ih (applyOp s op) ?_ (retry_bound_applyOp s op hnd hinv)
    rw [ids_applyOp]
    exact hnd

/-- C6: schedule_retry on a job that is missing, not FAILED, or out of
budget returns false and leaves the table unchanged; retry_count never
exceeds max_retries in any state reachable from rows satisfying the bound;
and with max_retries = 3, after three fail-and-retry cycles the fourth
retry attempt returns false and the job stays FAILED with retry_count 3. -/
theorem schedule_retry_bounded :
    (∀ (s : List Job) (i : Nat),
      (∀ j, get_by_id s i = some j → can_retry j = false) →
      schedule_retry s i = (s, false)) ∧
    (∀ (s : List Job) (ops : List StoreOp),
      (s.map Job.id).Nodup →
      (∀ j ∈ s, j.retry_count ≤ j.max_retries) →
      ∀ j ∈ run s ops, j.retry_count ≤ j.max_retries) ∧
    (schedule_retry
        (run [create_job 1 "t" 0 3]
          [StoreOp.claimOp "w" none 1, StoreOp.failOp 1 "e" none 2,
           StoreOp.retryOp 1,
           StoreOp.claimOp "w" none 3, StoreOp.failOp 1 "e" none 4,
           StoreOp.retryOp 1,
           StoreOp.claimOp "w" none 5, StoreOp.failOp 1 "e" none 6,
           StoreOp.retryOp 1,
           StoreOp.claimOp "w" none 7, StoreOp.failOp 1 "e" none 8]) 1 =
      (run [create_job 1 "t" 0 3]
          [StoreOp.claimOp "w" none 1, StoreOp.failOp 1 "e" none 2,
           StoreOp.retryOp 1,
           StoreOp.claimOp "w" none 3, StoreOp.failOp 1 "e" none 4,
           StoreOp.retryOp 1,
           StoreOp.claimOp "w" none 5, StoreOp.failOp 1 "e" none 6,
           StoreOp.retryOp 1,
           StoreOp.claimOp "w" none 7, StoreOp.failOp 1 "e" none 8], false) ∧
      (run [create_job 1 "t" 0 3]
          [StoreOp.claimOp "w" none 1, StoreOp.failOp 1 "e" none 2,
           StoreOp.retryOp 1,
           StoreOp.claimOp "w" none 3, StoreOp.failOp 1 "e" none 4,
           StoreOp.retryOp 1,
           StoreOp.claimOp "w" none 5, StoreOp.failOp 1 "e" none 6,
           StoreOp.retryOp 1,
           StoreOp.claimOp "w" none 7, StoreOp.failOp 1 "e" none 8]).map
        Job.status = [JobStatus.failed] ∧
      (run [create_job 1 "t" 0 3]
          [StoreOp.claimOp "w" none 1, StoreOp.failOp 1 "e" none 2,
           StoreOp.retryOp 1,
           StoreOp.claimOp "w" none 3, StoreOp.failOp 1 "e" none 4,
           StoreOp.retryOp 1,
           StoreOp.claimOp "w" none 5, StoreOp.failOp 1 "e" none 6,
           StoreOp.retryOp 1,
           StoreOp.claimOp "w" none 7, StoreOp.failOp 1 "e" none 8]).map
        Job.retry_count = [3]) := by
  refine ⟨?_, retry_bound_run, ?_, ?_, ?_⟩
  · intro s i h
    unfold schedule_retry
    cases hfind : get_by_id s i with
    | none => rfl
    | some job =>
      dsimp only
      rw [if_neg (by simp [h job hfind])]
  · decide
  · decide
  · decide

/-- Witness for C6: an exhausted job (retry_count = max_retries = 3) is
rejected with no change, and the bound holds along a concrete run. -/
theorem schedule_retry_bounded_witness :
    schedule_retry
      [{ create_job 1 "t" 0 3 with status := JobStatus.failed, retry_count := 3 }] 1 =
      ([{ create_job 1 "t" 0 3 with status := JobStatus.failed, retry_count := 3 }],
        false) ∧
    (∀ j ∈ run [create_job 1 "t" 0 3]
        [StoreOp.claimOp "w" none 1, StoreOp.failOp 1 "e" none 2,
         StoreOp.retryOp 1],
      j.retry_count ≤ j.max_retries) := by
  constructor
  · exact schedule_retry_bounded.1
      [{ create_job 1 "t" 0 3 with status := JobStatus.failed, retry_count := 3 }] 1
      (by decide)
  · exact schedule_retry_bounded.2.1 [create_job 1 "t" 0 3]
      [StoreOp.claimOp "w" none 1, StoreOp.failOp 1 "e" none 2,
       StoreOp.retryOp 1] (by decide) (by decide)

theorem claimQueryPred_pending {f : Option String} {j : Job}
    (h : claimQueryPred f j = true) : j.status = JobStatus.pending := by
  unfold claimQueryPred at h
  split at h
  · simp only [Bool.and_eq_true, beq_iff_eq] at h
    exact h.1
  · simpa using h

/-- C4 counterexample: mark_completed turns a PENDING job COMPLETED without
a claim, and mark_failed then turns the COMPLETED job FAILED — neither
update guards on the current status. -/
theorem status_transitions_counterexample :
    (run [create_job 1 "t" 0 3] [StoreOp.completeOp 1 2]).map Job.status =
      [JobStatus.completed] ∧
    (run [create_job 1 "t" 0 3]
      [StoreOp.claimOp "w" none 1, StoreOp.completeOp 1 2,
       StoreOp.failOp 1 "boom" none 3]).map Job.status =
      [JobStatus.failed] := by
  refine ⟨?_, ?_⟩ <;> decide

/-- C4 amended: the guarded transitions are as listed — a successful claim
moves only one PENDING row to PROCESSING, schedule_retry succeeds only on a
FAILED row with budget and moves it to PENDING, update_progress never
changes status — but mark_completed and mark_failed set COMPLETED / FAILED
on the addressed id unconditionally, whatever its current status, so the
claimed transition diagram holds only when callers invoke them solely on
PROCESSING jobs. -/
theorem status_transitions_guarded :
    (∀ (s s1 : List Job) (w : String) (f : Option String) (now : Nat) (c : Job),
      (s.map Job.id).Nodup → claim_next s w f now = (s1, some c) →
      ∃ j, j ∈ s ∧ j.status = JobStatus.pending ∧ c = applyClaim w now j ∧
        c.status = JobStatus.processing ∧
        s1 = s.map (claimUpdateRow j.id j.version w now) ∧
        ∀ x ∈ s, claimUpdateRow j.id j.version w now x = x ∨ x = j) ∧
    (∀ (i : Nat) (p : Int) (cs : Option String) (x : Job),
      (progressRow i p cs x).status = x.status) ∧
    (∀ (i now : Nat) (x : Job),
      (x.id ≠ i → completeRow i now x = x) ∧
      (x.id = i → (completeRow i now x).status = JobStatus.completed)) ∧
    (∀ (i : Nat) (msg : String) (code : Option String) (now : Nat) (x : Job),
      (x.id ≠ i → failRow i msg code now x = x) ∧
      (x.id = i → (failRow i msg code now x).status = JobStatus.failed)) ∧
    (∀ (s s1 : List Job) (i : Nat),
      (schedule_retry s i = (s1, false) → s1 = s) ∧
      (schedule_retry s i = (s1, true) →
        ∃ j, j ∈ s ∧ j.id = i ∧ j.status = JobStatus.failed ∧
          j.retry_count < j.max_retries ∧
          s1 = s.map (retryRow i j.retry_count) ∧
          ∀ x : Job, (x.id ≠ i → retryRow i j.retry_count x = x) ∧
            (x.id = i → (retryRow i j.retry_count x).status = JobStatus.pending))) := by
  refine ⟨?_, ?_, ?_, ?_, ?_⟩
  · intro s s1 w f now c hnd h
    rcases claim_next_success hnd h with ⟨j, hjs, hpred, hcj, hs1, _, _⟩
    refine ⟨j, hjs, claimQueryPred_pending hpred, hcj, by rw [hcj]; rfl, hs1, ?_⟩
    intro x hx
    by_cases hcond : x.id = j.id ∧ x.version = j.version
    · exact Or.inr (idInj hnd hx hjs hcond.1)
    · left
      unfold claimUpdateRow
      rw [if_neg hcond]
  · intro i p cs x
    unfold progressRow
    split <;> rfl
  · intro i now x
    constructor
    · intro hx
      unfold completeRow
      rw [if_neg hx]
    · intro hx
      unfold completeRow
      rw [if_pos hx]
  · intro i msg code now x
    constructor
    · intro hx
      unfold failRow
      rw [if_neg hx]
    · intro hx
      unfold failRow
      rw [if_pos hx]
  · intro s s1 i
    constructor
    · intro h
      unfold schedule_retry at h
      cases hfind : get_by_id s i with
      | none =>
        rw [hfind] at h
        exact (congrArg Prod.fst h).symm
      | some job =>
        rw [hfind] at h
        dsimp only at h
        by_cases hr : can_retry job = true
        · rw [if_pos hr] at h
          exact absurd (congrArg Prod.snd h) (by simp)
        · rw [if_neg hr] at h
          exact (congrArg Prod.fst h).symm
    · intro h
      unfold schedule_retry at h
      cases hfind : get_by_id s i with
      | none =>
        rw [hfind] at h
        exact absurd (congrArg Prod.snd h) (by simp)
      | some job =>
        rw [hfind] at h
        dsimp only at h
        by_cases hr : can_retry job = true
        · rw [if_pos hr] at h
          have hid : job.id = i := by
            simpa using List.find?_some hfind
          simp only [can_retry, Bool.and_eq_true, beq_iff_eq,
            decide_eq_true_eq] at hr
          refine ⟨job, List.mem_of_find?_eq_some hfind, hid, hr.1, hr.2,
            (congrArg Prod.fst h).symm, ?_⟩
          intro x
          constructor
          · intro hx
            unfold retryRow
            rw [if_neg hx]
          · intro hx
            unfold retryRow
            rw [if_pos hx]
        · rw [if_neg hr] at h
          exact absurd (congrArg Prod.snd h) (by simp)

/-- Witness for C4: a concrete successful claim comes from a PENDING row
and yields a PROCESSING record, and a retry on a non-FAILED table makes no
change. -/
theorem status_transitions_guarded_witness :
    (∃ j, j ∈ [create_job 1 "t" 0 3] ∧ j.status = JobStatus.pending ∧
      applyClaim "w" 5 (create_job 1 "t" 0 3) = applyClaim "w" 5 j ∧
      (applyClaim "w" 5 (create_job 1 "t" 0 3)).status = JobStatus.processing) ∧
    [{ create_job 1 "t" 0 3 with status := JobStatus.completed }] =
      [{ create_job 1 "t" 0 3 with status := JobStatus.completed }] := by
  constructor
  · have h := status_transitions_guarded.1 [create_job 1 "t" 0 3]
      ((claim_next [create_job 1 "t" 0 3] "w" none 5).1) "w" none 5
      (applyClaim "w" 5 (create_job 1 "t" 0 3)) (by decide) (by decide)
    rcases h with ⟨j, hj, hp, hc, hcs, _⟩
    exact ⟨j, hj, hp, hc, hcs⟩
  · exact (status_transitions_guarded.2.2.2.2
      [{ create_job 1 "t" 0 3 with status := JobStatus.completed }]
      [{ create_job 1 "t" 0 3 with status := JobStatus.completed }] 1).1
      (by decide)

/-- One store operation preserves the property that every PROCESSING row
has a worker and a start time. -/
theorem processing_owned_applyOp (s : List Job) (op : StoreOp)
    (hinv : ∀ j ∈ s, j.status = JobStatus.processing →
      j.worker_id ≠ none ∧ j.started_at ≠ none) :
    ∀ j ∈ applyOp s op, j.status = JobStatus.processing →
      j.worker_id ≠ none ∧ j.started_at ≠ none := by
  cases op with
  | claimOp w f now =>
    simp only [applyOp, claim_next]
    cases holdest : oldest (s.filter (claimQueryPred f)) with
    | none => exact hinv
    | some job =>
      intro j hj
      rcases List.mem_map.mp hj with ⟨x, hx, rfl⟩
      unfold claimUpdateRow
      split
      · intro _
        exact ⟨by simp [applyClaim], by simp [applyClaim]⟩
      · exact hinv x hx
  | progressOp i p cs =>
    intro j hj
    rcases List.mem_map.mp hj with ⟨x, hx, rfl⟩
    unfold progressRow
    split <;> exact hinv x hx
  | completeOp i now =>
    intro j hj
    rcases List.mem_map.mp hj with ⟨x, hx, rfl⟩
    unfold completeRow
    split
    · intro hst
      exact absurd hst (by simp)
    · exact hinv x hx
  | failOp i m c now =>
    intro j hj
    rcases List.mem_map.mp hj with ⟨x, hx, rfl⟩
    unfold failRow
    split
    · intro hst
      exact absurd hst (by simp)
    · exact hinv x hx
  | retryOp i =>
    simp only [applyOp, schedule_retry]
    cases hfind : get_by_id s i with
    | none => exact hinv
    | some job =>
      dsimp only
      by_cases hr : can_retry job = true
      · rw [if_pos hr]
        intro j hj
        rcases List.mem_map.mp hj with ⟨x, hx, rfl⟩
        unfold retryRow
        split
        · intro hst
          exact absurd hst (by simp)
        · exact hinv x hx
      · rw [if_neg hr]
        exact hinv

/-- C3 counterexample: claim then complete a fresh job; the record is
COMPLETED but still carries the worker id and start time, so status =
PROCESSING is not equivalent to worker_id and started_at being non-null. -/
theorem processing_iff_worker_counterexample :
    ¬ (∀ j ∈ run [create_job 1 "t" 0 3]
        [StoreOp.claimOp "w" none 1, StoreOp.completeOp 1 2],
      (j.status = JobStatus.processing ↔
        j.worker_id ≠ none ∧ j.started_at ≠ none)) := by
  decide

/-- C3 amended: in every record reachable from freshly created rows through
the store operations, status = PROCESSING implies worker_id and started_at
are non-null; the converse direction fails because mark_completed and
mark_failed leave worker_id and started_at in place on the now-terminal
record (only schedule_retry clears them). -/
theorem processing_has_worker :
    (∀ (i : Nat) (t : String) (created maxr : Nat),
      (create_job i t created maxr).status = JobStatus.processing →
        (create_job i t created maxr).worker_id ≠ none ∧
        (create_job i t created maxr).started_at ≠ none) ∧
    (∀ (s : List Job) (ops : List StoreOp),
      (∀ j ∈ s, j.status = JobStatus.processing →
        j.worker_id ≠ none ∧ j.started_at ≠ none) →
      ∀ j ∈ run s ops, j.status = JobStatus.processing →
        j.worker_id ≠ none ∧ j.started_at ≠ none) := by
  constructor
  · intro i t created maxr hst
    exact absurd hst (by simp [create_job])
  · intro s ops
    induction ops generalizing s with
    | nil => exact fun hinv => hinv
    | cons op tl ih =>
      intro hinv
      exact ih (applyOp s op) (processing_owned_applyOp s op hinv)

/-- Witness for C3: after a concrete claim, the PROCESSING record indeed
has a worker and a start time. -/
theorem processing_has_worker_witness :
    ∀ j ∈ run [create_job 1 "t" 0 3] [StoreOp.claimOp "w" none 1],
      j.status = JobStatus.processing →
        j.worker_id ≠ none ∧ j.started_at ≠ none :=
  processing_has_worker.2 [create_job 1 "t" 0 3]
    [StoreOp.claimOp "w" none 1] (by decide)

/-! ## No-double-claim: invariant proof over arbitrary interleavings -/

theorem storeB_no_match {s0 : List Job} {j0 : Job}
    (hnd : (s0.map Job.id).Nodup) (hj0 : j0 ∈ s0) (wid : String) (now : Nat) :
    ∀ x ∈ s0.map (claimUpdateRow j0.id j0.version wid now),
      ¬ ((x.id == j0.id && x.version == j0.version) = true) := by
  intro x hx
  rcases List.mem_map.mp hx with ⟨y, hy, rfl⟩
  by_cases hyid : y.id = j0.id
  · have hyj : y = j0 := idInj hnd hy hj0 hyid
    subst hyj
    have hrow : claimUpdateRow y.id y.version wid now y = applyClaim wid now y := by
      unfold claimUpdateRow
      rw [if_pos ⟨rfl, rfl⟩]
    rw [hrow]
    simp only [applyClaim, Bool.and_eq_true, beq_iff_eq]
    intro hc
    omega
  · have hrow : claimUpdateRow j0.id j0.version wid now y = y := by
      unfold claimUpdateRow
      rw [if_neg (fun hc => hyid hc.1)]
    rw [hrow]
    simp only [Bool.and_eq_true, beq_iff_eq]
    intro hc
    exact hyid hc.1

theorem storeB_no_pending {s0 : List Job} {j0 : Job}
    (hnd : (s0.map Job.id).Nodup) (hj0 : j0 ∈ s0)
    (hfilter : s0.filter (claimQueryPred none) = [j0]) (wid : String) (now : Nat) :
    (s0.map (claimUpdateRow j0.id j0.version wid now)).filter
      (claimQueryPred none) = [] := by
  rw [List.filter_eq_nil_iff]
  intro a ha
  rcases List.mem_map.mp ha with ⟨y, hy, rfl⟩
  by_cases hyid : y.id = j0.id
  · have hyj : y = j0 := idInj hnd hy hj0 hyid
    subst hyj
    have hrow : claimUpdateRow y.id y.version wid now y = applyClaim wid now y := by
      unfold claimUpdateRow
      rw [if_pos ⟨rfl, rfl⟩]
    rw [hrow]
    simp [claimQueryPred, isTruthy, applyClaim]
  · have hrow : claimUpdateRow j0.id j0.version wid now y = y := by
      unfold claimUpdateRow
      rw [if_neg (fun hc => hyid hc.1)]
    rw [hrow]
    intro hp
    have hmem : y ∈ s0.filter (claimQueryPred none) :=
      List.mem_filter.mpr ⟨hy, hp⟩
    rw [hfilter] at hmem
    exact hyid (congrArg Job.id (List.mem_singleton.mp hmem))

theorem storeB_stable {s0 : List Job} {j0 : Job}
    (hnd : (s0.map Job.id).Nodup) (hj0 : j0 ∈ s0)
    (wid now wid2 now2 : _) :
    (s0.map (claimUpdateRow j0.id j0.version wid now)).map
      (claimUpdateRow j0.id j0.version wid2 now2) =
      s0.map (claimUpdateRow j0.id j0.version wid now) := by
  have h : ∀ x ∈ s0.map (claimUpdateRow j0.id j0.version wid now),
      claimUpdateRow j0.id j0.version wid2 now2 x = id x := by
    intro x hx
    have hno := storeB_no_match hnd hj0 wid now x hx
    simp only [Bool.and_eq_true, beq_iff_eq, not_and] at hno
    unfold claimUpdateRow
    rw [if_neg (fun hc => hno hc.1 hc.2)]
    rfl
  rw [List.map_congr_left h, List.map_id]

theorem find?_claim_pair {s0 : List Job} {j0 : Job}
    (hnd : (s0.map Job.id).Nodup) (hj0 : j0 ∈ s0) :
    s0.find? (fun x => x.id == j0.id && x.version == j0.version) = some j0 := by
  cases hfind : s0.find? (fun x => x.id == j0.id && x.version == j0.version) with
  | none =>
    rw [List.find?_eq_none] at hfind
    exact absurd (by simp) (hfind j0 hj0)
  | some y =>
    have hp := List.find?_some hfind
    simp only [Bool.and_eq_true, beq_iff_eq] at hp
    have hy : y = j0 := idInj hnd (List.mem_of_find?_eq_some hfind) hj0 hp.1
    rw [hy]

theorem selectStep_unique {s0 : List Job} {j0 : Job}
    (hfilter : s0.filter (claimQueryPred none) = [j0]) :
    selectStep s0 none = some j0 := by
  unfold selectStep
  rw [hfilter]
  rfl

theorem selectStep_claimed {s0 : List Job} {j0 : Job}
    (hnd : (s0.map Job.id).Nodup) (hj0 : j0 ∈ s0)
    (hfilter : s0.filter (claimQueryPred none) = [j0]) (wid : String) (now : Nat) :
    selectStep (s0.map (claimUpdateRow j0.id j0.version wid now)) none = none := by
  unfold selectStep
  rw [storeB_no_pending hnd hj0 hfilter wid now]
  rfl

theorem workerStep_length (f : Option String) (sys : ClaimSystem)
    (t : Nat × String × Nat) :
    (workerStep f sys t).workers.length = sys.workers.length := by
  unfold workerStep
  cases hk : sys.workers[t.1]? with
  | none => rfl
  | some w =>
    cases w with
    | idle =>
      cases selectStep sys.store f with
      | none => exact List.length_set sys.workers t.1 _
      | some j => exact List.length_set sys.workers t.1 _
    | selected i v => exact List.length_set sys.workers t.1 _
    | done r => rfl

theorem runSystem_length (f : Option String) (sys : ClaimSystem)
    (sched : List (Nat × String × Nat)) :
    (runSystem f sys sched).workers.length = sys.workers.length := by
  induction sched generalizing sys with
  | nil => rfl
  | cons t tl ih =>
    show (runSystem f (workerStep f sys t) tl).workers.length = _
    rw [ih (workerStep f sys t), workerStep_length]

/-- One interleaved step preserves the claim invariant. -/
theorem sysInv_step {s0 : List Job} {j0 : Job}
    (hnd : (s0.map Job.id).Nodup)
    (hfilter : s0.filter (claimQueryPred none) = [j0])
    (sys : ClaimSystem) (t : Nat × String × Nat)
    (hinv : SysInv s0 j0 sys) : SysInv s0 j0 (workerStep none sys t) := by
  have hj0f : j0 ∈ s0.filter (claimQueryPred none) := by
    rw [hfilter]
    exact List.mem_singleton.mpr rfl
  have hj0 : j0 ∈ s0 := (List.mem_filter.mp hj0f).1
  obtain ⟨k, wid, now⟩ := t
  unfold SysInv at hinv ⊢
  unfold workerStep
  dsimp only
  cases hk : sys.workers[k]? with
  | none => exact hinv
  | some w =>
    have hwmem : w ∈ sys.workers := List.getElem?_mem hk
    rcases List.getElem?_eq_some.mp hk with ⟨hklt, hkel⟩
    cases w with
    | idle =>
      rcases hinv with ⟨hstore, hph⟩ | ⟨⟨wid0, now0, hstore⟩, hcount, hph⟩
      · rw [hstore, selectStep_unique hfilter]
        dsimp only
        left
        refine ⟨rfl, ?_⟩
        intro w' hw'
        rcases List.mem_or_eq_of_mem_set hw' with hmem | rfl
        · exact hph w' hmem
        · exact Or.inr rfl
      · rw [hstore, selectStep_claimed hnd hj0 hfilter wid0 now0]
        dsimp only
        right
        refine ⟨⟨wid0, now0, rfl⟩, ?_, ?_⟩
        · rw [List.countP_set _ _ _ _ hklt, hkel]
          simp [isSuccessFor, hcount]
        · intro w' hw'
          rcases List.mem_or_eq_of_mem_set hw' with hmem | rfl
          · exact hph w' hmem
          · exact Or.inr (Or.inr (Or.inl rfl))
    | selected i v =>
      rcases hinv with ⟨hstore, hph⟩ | ⟨⟨wid0, now0, hstore⟩, hcount, hph⟩
      · have hi : i = j0.id ∧ v = j0.version := by
          rcases hph _ hwmem with h | h
          · exact absurd h (by simp)
          · injection h with h1 h2
            exact ⟨h1, h2⟩
        obtain ⟨rfl, rfl⟩ := hi
        dsimp only
        rw [hstore, find?_claim_pair hnd hj0]
        right
        refine ⟨⟨wid, now, rfl⟩, ?_, ?_⟩
        · rw [List.countP_set _ _ _ _ hklt, hkel]
          have h0 : sys.workers.countP (isSuccessFor j0) = 0 := by
            rw [List.countP_eq_zero]
            intro a ha
            rcases hph a ha with rfl | rfl <;> simp [isSuccessFor]
          rw [h0]
          simp [isSuccessFor, applyClaim]
        · intro w' hw'
          rcases List.mem_or_eq_of_mem_set hw' with hmem | rfl
          · rcases hph w' hmem with rfl | rfl
            · exact Or.inl rfl
            · exact Or.inr (Or.inl rfl)
          · refine Or.inr (Or.inr (Or.inr ?_))
            simp [isSuccessFor, applyClaim]
      · have hi : i = j0.id ∧ v = j0.version := by
          rcases hph _ hwmem with h | h | h | h
          · exact absurd h (by simp)
          · injection h with h1 h2
            exact ⟨h1, h2⟩
          · exact absurd h (by simp)
          · simp [isSuccessFor] at h
        obtain ⟨rfl, rfl⟩ := hi
        have hfind : (s0.map (claimUpdateRow j0.id j0.version wid0 now0)).find?
            (fun x => x.id == j0.id && x.version == j0.version) = none := by
          rw [List.find?_eq_none]
          exact storeB_no_match hnd hj0 wid0 now0
        dsimp only
        rw [hstore, hfind, storeB_stable hnd hj0 wid0 now0 wid now]
        right
        refine ⟨⟨wid0, now0, rfl⟩, ?_, ?_⟩
        · rw [List.countP_set _ _ _ _ hklt, hkel]
          simp [isSuccessFor, hcount]
        · intro w' hw'
          rcases List.mem_or_eq_of_mem_set hw' with hmem | rfl
          · exact hph w' hmem
          · exact Or.inr (Or.inr (Or.inl rfl))
    | done r => exact hinv

theorem sysInv_run {s0 : List Job} {j0 : Job}
    (hnd : (s0.map Job.id).Nodup)
    (hfilter : s0.filter (claimQueryPred none) = [j0])
    (sys : ClaimSystem) (sched : List (Nat × String × Nat))
    (hinv : SysInv s0 j0 sys) : SysInv s0 j0 (runSystem none sys sched) := by
  induction sched generalizing sys with
  | nil => exact hinv
  | cons t tl ih =>
    exact ih (workerStep none sys t) (sysInv_step hnd hfilter sys t hinv)

/-- C1: against a table whose only claimable row is `j0`, for n ≥ 1
concurrent claim_next calls and every interleaving of their SELECT and
conditional-UPDATE steps in which all calls finish, exactly one call
returns the claimed job (PROCESSING, version bumped by one) and every other
call returns none: the losers' conditional update on `(id, version)`
matches zero rows. -/
theorem no_double_claim (s0 : List Job) (j0 : Job) (n : Nat)
    (sched : List (Nat × String × Nat))
    (hnd : (s0.map Job.id).Nodup)
    (hfilter : s0.filter (claimQueryPred none) = [j0])
    (hn : 0 < n)
    (hdone : ∀ w ∈ (runSystem none
        ⟨s0, List.replicate n WorkerPhase.idle⟩ sched).workers,
      isDone w = true) :
    (runSystem none ⟨s0, List.replicate n WorkerPhase.idle⟩ sched).workers.countP
      (isSuccessFor j0) = 1 ∧
    ∀ w ∈ (runSystem none ⟨s0, List.replicate n WorkerPhase.idle⟩ sched).workers,
      isSuccessFor j0 w = true ∨ w = WorkerPhase.done none := by
  have hinv0 : SysInv s0 j0 ⟨s0, List.replicate n WorkerPhase.idle⟩ := by
    left
    exact ⟨rfl, fun w hw => Or.inl (List.mem_replicate.mp hw).2⟩
  have hinv := sysInv_run hnd hfilter _ sched hinv0
  unfold SysInv at hinv
  rcases hinv with ⟨_, hph⟩ | ⟨_, hcount, hph⟩
  · exfalso
    have hlen : (runSystem none ⟨s0, List.replicate n WorkerPhase.idle⟩
        sched).workers.length = n := by
      rw [runSystem_length]
      exact List.length_replicate n WorkerPhase.idle
    obtain ⟨w, hw⟩ : ∃ w, w ∈ (runSystem none
        ⟨s0, List.replicate n WorkerPhase.idle⟩ sched).workers := by
      cases hws : (runSystem none ⟨s0, List.replicate n WorkerPhase.idle⟩
          sched).workers with
      | nil =>
        rw [hws] at hlen
        simp only [List.length_nil] at hlen
        exact absurd hlen.symm (by omega)
      | cons a l =>
        exact ⟨a, List.mem_cons_self a l⟩
    have hd := hdone w hw
    rcases hph w hw with rfl | rfl <;> simp [isDone] at hd
  · refine ⟨hcount, ?_⟩
    intro w hw
    rcases hph w hw with rfl | rfl | rfl | hs
    · exact absurd (hdone _ hw) (by simp [isDone])
    · exact absurd (hdone _ hw) (by simp [isDone])
    · exact Or.inr rfl
    · exact Or.inl hs

/-- Witness for C1: two workers both SELECT the single pending job before
either UPDATEs; the first conditional update wins, the second matches zero
rows and returns none. -/
theorem no_double_claim_witness :
    (runSystem none
      ⟨[create_job 1 "t" 0 3], List.replicate 2 WorkerPhase.idle⟩
      [(0, "w0", 5), (1, "w1", 6), (0, "w0", 7), (1, "w1", 8)]).workers.countP
      (isSuccessFor (create_job 1 "t" 0 3)) = 1 ∧
    ∀ w ∈ (runSystem none
      ⟨[create_job 1 "t" 0 3], List.replicate 2 WorkerPhase.idle⟩
      [(0, "w0", 5), (1, "w1", 6), (0, "w0", 7), (1, "w1", 8)]).workers,
      isSuccessFor (create_job 1 "t" 0 3) w = true ∨
        w = WorkerPhase.done none :=
  no_double_claim [create_job 1 "t" 0 3] (create_job 1 "t" 0 3) 2
    [(0, "w0", 5), (1, "w1", 6), (0, "w0", 7), (1, "w1", 8)]
    (by decide) (by decide) (by decide) (by decide)
